import Mathlib

/-!
Shallow embedding of `wagtail_ab_testing/views.py` (the A/B-testing admin
views): the aggregation and time-series logic of the `progress` view, its
POST lifecycle handler, and the creation checks of `add_form` /
`add_ab_test_checks`.  Dates are modelled as natural-number day indices,
Python float arithmetic as exact rational arithmetic, and a Python
`ZeroDivisionError` as an `Option` that is `none`.
-/

namespace AbTesting

/-- The two variants of an A/B test (`AbTest.Variant` in the models). -/
inductive Variant
  | control
  | treatment
deriving DecidableEq, Repr

/-- Experiment lifecycle status (`AbTest.Status`). -/
inductive Status
  | draft
  | running
  | paused
  | finished
deriving DecidableEq, Repr

/-- One `HourlyLog` row: an hourly bucket of participants and conversions. -/
structure HourlyLog where
  date : Nat
  hour : Nat
  variant : Variant
  participants : Nat
  conversions : Nat
deriving DecidableEq, Repr

/-- One data point of the `time_series` list built by the `progress` view. -/
structure Entry where
  date : Nat
  control : Nat
  treatment : Nat
deriving DecidableEq, Repr

/-- The ordering used by `ab_test.hourly_logs.order_by('date', 'hour')`. -/
def logLE (a b : HourlyLog) : Prop :=
  a.date < b.date ∨ (a.date = b.date ∧ a.hour ≤ b.hour)

instance : DecidableRel logLE := fun a b =>
  inferInstanceAs (Decidable (a.date < b.date ∨ (a.date = b.date ∧ a.hour ≤ b.hour)))

/-- The list of rows is in the order the database query returns them:
consecutive rows are ordered by (date, hour). -/
def SortedLogs (logs : List HourlyLog) : Prop :=
  List.Chain' logLE logs

instance instDecSortedLogs : (logs : List HourlyLog) → Decidable (SortedLogs logs)
  | [] => isTrue trivial
  | [_] => isTrue List.Chain.nil
  | a :: b :: rest =>
    match inferInstanceAs (Decidable (logLE a b)), instDecSortedLogs (b :: rest) with
    | isTrue hab, isTrue ht => isTrue (List.chain'_cons.mpr ⟨hab, ht⟩)
    | isFalse hab, _ => isFalse (fun hc => hab (List.chain'_cons.mp hc).1)
    | _, isFalse ht => isFalse (fun hc => ht (List.chain'_cons.mp hc).2)

/-- Comparison of rows by date only (a consequence of `logLE`). -/
def dateLE (a b : HourlyLog) : Prop :=
  a.date ≤ b.date

instance : IsTrans HourlyLog dateLE :=
  ⟨fun _ _ _ h1 h2 => Nat.le_trans h1 h2⟩

/-- Entries appended by one run of the catch-up while-loop of the progress
view: one entry per day for days `start, start+1, ..., start+n-1`, all
carrying the current cumulative totals `(c, t)`. -/
def emitDays (c t : Nat) : Nat → Nat → List Entry
  | _, 0 => []
  | start, Nat.succ n => { date := start, control := c, treatment := t } :: emitDays c t (start + 1) n

/-- The control total after the loop body `control += log.conversions`
guarded by `log.variant == AbTest.Variant.CONTROL`. -/
def newControl (c : Nat) (log : HourlyLog) : Nat :=
  if log.variant = Variant.control then c + log.conversions else c

/-- The treatment total after the loop body's else-branch
`treatment += log.conversions`. -/
def newTreatment (t : Nat) (log : HourlyLog) : Nat :=
  if log.variant = Variant.control then t else t + log.conversions

/-- The accumulation loop over the (date, hour)-ordered hourly logs in the
`progress` view (views.py lines 262-287).  The state is the running control
total, the running treatment total and the current chart date (`None` before
the first row).  Each row first adds its conversions to its variant's total,
then the chart date is advanced to the row's date, emitting one entry per day
passed over (a single entry at the row's own date for the first row). -/
def tsLoop : List HourlyLog → Nat → Nat → Option Nat → List Entry
  | [], _, _, _ => []
  | log :: rest, c, t, none =>
    { date := log.date, control := newControl c log, treatment := newTreatment t log }
      :: tsLoop rest (newControl c log) (newTreatment t log) (some log.date)
  | log :: rest, c, t, some dv =>
    emitDays (newControl c log) (newTreatment t log) (dv + 1) (log.date - dv)
      ++ tsLoop rest (newControl c log) (newTreatment t log) (some (max dv log.date))

/-- The `time_series` value computed by the `progress` view. -/
def timeSeries (logs : List HourlyLog) : List Entry :=
  tsLoop logs 0 0 none

/-- Python `x or 0` applied to a nullable SQL aggregate. -/
def orZero : Option Nat → Nat
  | none => 0
  | some n => n

/-- Django `Sum(field, filter=Q(variant=v))` over the experiment's hourly
logs: the SQL sum over the rows of variant `v`, which is NULL (here `none`)
when no row matches the filter. -/
def aggSum (field : HourlyLog → Nat) (v : Variant) (logs : List HourlyLog) : Option Nat :=
  if (logs.filter (fun l => decide (l.variant = v))).isEmpty then
    none
  else
    some (((logs.filter (fun l => decide (l.variant = v))).map field).sum)

/-- `stats['control_participants'] or 0` (views.py line 246). -/
def control_participants (logs : List HourlyLog) : Nat :=
  orZero (aggSum HourlyLog.participants Variant.control logs)

/-- `stats['control_conversions'] or 0` (views.py line 247). -/
def control_conversions (logs : List HourlyLog) : Nat :=
  orZero (aggSum HourlyLog.conversions Variant.control logs)

/-- `stats['treatment_participants'] or 0` (views.py line 248). -/
def treatment_participants (logs : List HourlyLog) : Nat :=
  orZero (aggSum HourlyLog.participants Variant.treatment logs)

/-- `stats['treatment_conversions'] or 0` (views.py line 249). -/
def treatment_conversions (logs : List HourlyLog) : Nat :=
  orZero (aggSum HourlyLog.conversions Variant.treatment logs)

/-- `current_sample_size` (views.py line 251). -/
def current_sample_size (logs : List HourlyLog) : Nat :=
  control_participants logs + treatment_participants logs

/-- `estimated_completion_date` (views.py lines 253-260).  `today` is
`timezone.now().date()` as a rational day number and `running_duration_days`
is `ab_test.total_running_duration().days`, the whole-day count computed by
the model layer and consumed here as an input.  The result, when present, is
today plus a rational number of days (`datetime.timedelta(days=...)`). -/
def estimated_completion_date (status : Status) (sample_size : Nat)
    (running_duration_days : Nat) (today : ℚ) (logs : List HourlyLog) : Option ℚ :=
  if status = Status.running ∧ current_sample_size logs ≠ 0 then
    if running_duration_days > 0 then
      let participants_per_day : ℚ := (current_sample_size logs : ℚ) / running_duration_days
      let estimated_days_remaining : ℚ :=
        ((sample_size : ℚ) - (current_sample_size logs : ℚ)) / participants_per_day
      some (today + estimated_days_remaining)
    else
      none
  else
    none

/-- Python division: raises ZeroDivisionError (modelled as `none`) when the
denominator is zero. -/
def pydiv (a b : ℚ) : Option ℚ :=
  if b = 0 then none else some (a / b)

/-- Python `int()` applied to a rational: truncation toward zero.  Every
value it is applied to in the progress view is nonnegative, where truncation
agrees with the floor. -/
def pyint (q : ℚ) : ℤ :=
  if q < 0 then -Rat.floor (-q) else Rat.floor q

/-- The expression `int(conversions / participants * 100) if participants
else 0` of views.py lines 296 and 299: the division is only evaluated under
the guard that `participants` is non-zero. -/
def guarded_percent (conversions participants : Nat) : Option ℤ :=
  if participants = 0 then
    some 0
  else
    (pydiv (conversions : ℚ) (participants : ℚ)).map (fun r => pyint (r * 100))

/-- The computed fields of the template context built at the end of the
`progress` view (views.py lines 289-313) for a GET request. -/
structure ProgressContext where
  current_sample_size : Nat
  current_sample_size_percent : ℤ
  control_conversions : Nat
  control_participants : Nat
  control_conversions_percent : ℤ
  treatment_conversions : Nat
  treatment_participants : Nat
  treatment_conversions_percent : ℤ
  control_is_winner : Bool
  treatment_is_winner : Bool
  estimated_completion_date : Option ℚ
  time_series : List Entry
deriving DecidableEq, Repr

/-- The template context of the `progress` view; `none` models an uncaught
ZeroDivisionError.  The division `current_sample_size / ab_test.sample_size`
(views.py line 293) is not guarded; the per-variant percent divisions are
guarded by their participant counts. -/
def progress_context (status : Status) (sample_size : Nat)
    (winning_variant : Option Variant) (running_duration_days : Nat) (today : ℚ)
    (logs : List HourlyLog) : Option ProgressContext :=
  let cp := control_participants logs
  let cc := control_conversions logs
  let tp := treatment_participants logs
  let tc := treatment_conversions logs
  let css := cp + tp
  (pydiv (css : ℚ) (sample_size : ℚ)).bind (fun cssFrac =>
    (guarded_percent cc cp).bind (fun ccPct =>
      (guarded_percent tc tp).map (fun tcPct =>
        { current_sample_size := css
          current_sample_size_percent := pyint (cssFrac * 100)
          control_conversions := cc
          control_participants := cp
          control_conversions_percent := ccPct
          treatment_conversions := tc
          treatment_participants := tp
          treatment_conversions_percent := tcPct
          control_is_winner := decide (winning_variant = some Variant.control)
          treatment_is_winner := decide (winning_variant = some Variant.treatment)
          estimated_completion_date :=
            estimated_completion_date status sample_size running_duration_days today logs
          time_series := timeSeries logs })))

/-- An `AbTest` row, reduced to the fields the views consult. -/
structure Experiment where
  pageId : Nat
  status : Status
deriving DecidableEq, Repr

/-- Modelled from the spec: `AbTest.start()` is defined in models.py, which
is not among the sources here; per spec section 4.1 (Draft to Running, and
Paused to Running on restart) it moves the experiment to Running.  Timestamp
bookkeeping is not modelled. -/
def abStart (e : Experiment) : Experiment :=
  { e with status := Status.running }

/-- Modelled from the spec: `AbTest.pause()` (models.py, not among the
sources) moves the experiment to Paused. -/
def abPause (e : Experiment) : Experiment :=
  { e with status := Status.paused }

/-- Modelled from the spec: `AbTest.finish(cancel=True)` (models.py, not
among the sources) moves the experiment to Finished. -/
def abFinish (e : Experiment) : Experiment :=
  { e with status := Status.finished }

/-- Which of the recognised action keys are present in `request.POST` for
the POST branch of the `progress` view. -/
structure ProgressPost where
  action_start : Bool
  action_restart : Bool
  action_end : Bool
  action_pause : Bool
deriving DecidableEq, Repr

/-- The message posted by the POST branch of the `progress` view.  The
successful end and pause branches post no message (`silent`). -/
inductive ProgressMsg
  | started
  | mustBeDraftOrPaused
  | alreadyEnded
  | notRunning
  | unknownAction
  | silent
deriving DecidableEq, Repr

/-- Whether a message is posted through `messages.error`. -/
def isErrorMsg : ProgressMsg → Bool
  | ProgressMsg.mustBeDraftOrPaused => true
  | ProgressMsg.alreadyEnded => true
  | ProgressMsg.notRunning => true
  | ProgressMsg.unknownAction => true
  | _ => false

/-- The POST branch of the `progress` view (views.py lines 212-237): apply
the requested lifecycle action when the current status allows it, otherwise
post an error and leave the experiment untouched; in all cases redirect
back to the page editor. -/
def progress_post (e : Experiment) (req : ProgressPost) : Experiment × ProgressMsg :=
  if req.action_start || req.action_restart then
    if e.status = Status.draft ∨ e.status = Status.paused then
      (abStart e, ProgressMsg.started)
    else
      (e, ProgressMsg.mustBeDraftOrPaused)
  else if req.action_end then
    if e.status = Status.draft ∨ e.status = Status.running ∨ e.status = Status.paused then
      (abFinish e, ProgressMsg.silent)
    else
      (e, ProgressMsg.alreadyEnded)
  else if req.action_pause then
    if e.status = Status.running then
      (abPause e, ProgressMsg.silent)
    else
      (e, ProgressMsg.notRunning)
  else
    (e, ProgressMsg.unknownAction)

/-- The fields of a Wagtail page that `add_ab_test_checks` consults. -/
structure PageRec where
  id : Nat
  live : Bool
  has_unpublished_changes : Bool
deriving DecidableEq, Repr

/-- The request data consulted by `add_form`: the two permission checks, the
HTTP method, form validity, and whether the start button was pressed. -/
structure AddRequest where
  can_edit_page : Bool
  can_add_abtest : Bool
  is_post : Bool
  form_valid : Bool
  start_requested : Bool
deriving DecidableEq, Repr

/-- Modelled from the spec: `AbTest.objects.get_current_for_page` is defined
in models.py, which is not among the sources here; per the spec it returns
the page's experiment whose status is Draft, Running or Paused, if any (the
at-most-one active experiment of the page). -/
def get_current_for_page (experiments : List Experiment) (pageId : Nat) : Option Experiment :=
  experiments.find? (fun e =>
    decide (e.pageId = pageId ∧
      (e.status = Status.draft ∨ e.status = Status.running ∨ e.status = Status.paused)))

/-- The possible outcomes of `add_ab_test_checks`. -/
inductive CheckOutcome
  | permissionDenied
  | alreadyRunningRedirect
  | notLiveRedirect
  | passed
deriving DecidableEq, Repr

/-- `add_ab_test_checks` (views.py lines 51-71): permission checks raise
PermissionDenied; an existing current A/B test, or a page that is not live
with draft changes, posts an error message and redirects to the page
editor. -/
def add_ab_test_checks (req : AddRequest) (page : PageRec)
    (experiments : List Experiment) : CheckOutcome :=
  if !req.can_edit_page then
    CheckOutcome.permissionDenied
  else if !req.can_add_abtest then
    CheckOutcome.permissionDenied
  else if (get_current_for_page experiments page.id).isSome then
    CheckOutcome.alreadyRunningRedirect
  else if !page.live || !page.has_unpublished_changes then
    CheckOutcome.notLiveRedirect
  else
    CheckOutcome.passed

/-- The kind of response `add_form` sends. -/
inductive AddFormResponse
  | permissionDenied
  | redirectAlreadyRunning
  | redirectNotLive
  | redirectAfterSave
  | renderForm
deriving DecidableEq, Repr

/-- `CreateAbTestForm.save` (views.py lines 38-44): the new AbTest row for
the page.  The initial Draft status is modelled from the spec (section 3:
an experiment is created in Draft), models.py not being among the sources. -/
def form_save (page : PageRec) : Experiment :=
  { pageId := page.id, status := Status.draft }

/-- `add_form` (views.py lines 95-132): run `add_ab_test_checks`; on a valid
POST create the experiment (starting it when the start button was pressed)
and redirect, otherwise render the form.  Returns the experiment table after
the request together with the kind of response sent. -/
def add_form (req : AddRequest) (page : PageRec)
    (experiments : List Experiment) : List Experiment × AddFormResponse :=
  match add_ab_test_checks req page experiments with
  | CheckOutcome.permissionDenied => (experiments, AddFormResponse.permissionDenied)
  | CheckOutcome.alreadyRunningRedirect => (experiments, AddFormResponse.redirectAlreadyRunning)
  | CheckOutcome.notLiveRedirect => (experiments, AddFormResponse.redirectNotLive)
  | CheckOutcome.passed =>
    if req.is_post && req.form_valid then
      let saved := form_save page
      let saved := if req.start_requested then abStart saved else saved
      (experiments ++ [saved], AddFormResponse.redirectAfterSave)
    else
      (experiments, AddFormResponse.renderForm)

/-- Written from the spec's words, for comparison with the code: the
conversion totals the time-series claim predicts for a calendar day, namely
the sum of `conversions` over all rows of the variant dated on or before
that day. -/
def specCumulativeConversions (v : Variant) (d : Nat) (logs : List HourlyLog) : Nat :=
  ((logs.filter (fun l => decide (l.variant = v ∧ l.date ≤ d))).map HourlyLog.conversions).sum

/-- Sum of conversions of the rows of a variant. -/
def convSum (v : Variant) (logs : List HourlyLog) : Nat :=
  ((logs.filter (fun l => decide (l.variant = v))).map HourlyLog.conversions).sum

/-- All rows dated strictly before day `d` followed by the first row dated on
or after `d`: for (date, hour)-ordered rows this is exactly the prefix the
progress view has consumed when it emits the time-series entry of day `d`. -/
def rowsThroughFirstOn (d : Nat) : List HourlyLog → List HourlyLog
  | [] => []
  | l :: ls => if l.date < d then l :: rowsThroughFirstOn d ls else [l]

/-- The final chart date reached after processing the given rows, starting
from chart date `d`. -/
def lastDate (d : Nat) : List HourlyLog → Nat
  | [] => d
  | l :: ls => lastDate (max d l.date) ls

/-- Written from the spec's words (section 4.3): the conversion rate is
conversions divided by participants, defined as 0 when participants is 0. -/
def spec_conversionRate (conversions participants : Nat) : ℚ :=
  if participants = 0 then 0 else (conversions : ℚ) / (participants : ℚ)

/-- Both cumulative columns of one entry are at most those of the next. -/
def entMono (a b : Entry) : Prop :=
  a.control ≤ b.control ∧ a.treatment ≤ b.treatment

instance : DecidableRel entMono := fun a b =>
  inferInstanceAs (Decidable (a.control ≤ b.control ∧ a.treatment ≤ b.treatment))

/-- A concrete hourly-log table: one control row on day 1 with 5 conversions
and one control row on day 3 with 7 conversions, day 2 having no rows. -/
def exLogs : List HourlyLog :=
  [{ date := 1, hour := 0, variant := Variant.control, participants := 0, conversions := 5 },
   { date := 3, hour := 0, variant := Variant.control, participants := 0, conversions := 7 }]

/-- A concrete hourly-log table: a single control row with 10 participants
and 2 conversions on day 1. -/
def wLogs : List HourlyLog :=
  [{ date := 1, hour := 0, variant := Variant.control, participants := 10, conversions := 2 }]

theorem SortedLogs.datesMono {logs : List HourlyLog} (h : SortedLogs logs) :
    List.Pairwise dateLE logs := by
  refine List.chain'_iff_pairwise.mp (h.imp ?_)
  intro a b hab
  rcases hab with hlt | ⟨heq, _⟩
  · exact Nat.le_of_lt hlt
  · exact Nat.le_of_eq heq

theorem orZero_aggSum (field : HourlyLog → Nat) (v : Variant) (logs : List HourlyLog) :
    orZero (aggSum field v logs)
      = ((logs.filter (fun l => decide (l.variant = v))).map field).sum := by
  cases hf : logs.filter (fun l => decide (l.variant = v)) with
  | nil => simp [aggSum, hf, orZero]
  | cons a as => simp [aggSum, hf, orZero]

theorem filter_variant_sum (field : HourlyLog → Nat) (logs : List HourlyLog) :
    ((logs.filter (fun l => decide (l.variant = Variant.control))).map field).sum
      + ((logs.filter (fun l => decide (l.variant = Variant.treatment))).map field).sum
      = (logs.map field).sum := by
  induction logs with
  | nil => rfl
  | cons l ls ih =>
    cases hv : l.variant <;> simp [List.filter_cons, hv] <;> omega

/-- C5: `current_sample_size` as computed by the progress view equals the sum
of the participants field over all hourly-log buckets of both variants, and
with no log rows at all every aggregate is the neutral default 0. -/
theorem current_sample_size_eq_total_participants (logs : List HourlyLog) :
    current_sample_size logs = (logs.map HourlyLog.participants).sum
    ∧ (logs = [] →
        control_participants logs = 0 ∧ control_conversions logs = 0
          ∧ treatment_participants logs = 0 ∧ treatment_conversions logs = 0
          ∧ current_sample_size logs = 0) := by
  constructor
  · unfold current_sample_size control_participants treatment_participants
    rw [orZero_aggSum, orZero_aggSum]
    exact filter_variant_sum HourlyLog.participants logs
  · rintro rfl
    exact ⟨rfl, rfl, rfl, rfl, rfl⟩

theorem current_sample_size_eq_total_participants_witness :
    current_sample_size wLogs = (wLogs.map HourlyLog.participants).sum
    ∧ control_participants ([] : List HourlyLog) = 0 :=
  ⟨(current_sample_size_eq_total_participants wLogs).1,
   ((current_sample_size_eq_total_participants []).2 rfl).1⟩

/-- C4: the progress view produces an estimated completion date exactly when
the experiment is Running with a positive current sample size and a positive
whole-day running duration, and the estimate is today plus
(sample_size - current_sample_size) / (current_sample_size /
running_duration_days) days; otherwise the estimate is None. -/
theorem estimated_completion_date_spec (status : Status)
    (sample_size running_duration_days : Nat) (today : ℚ) (logs : List HourlyLog) :
    ((estimated_completion_date status sample_size running_duration_days today logs).isSome
        = true
      ↔ status = Status.running ∧ 0 < current_sample_size logs ∧ 0 < running_duration_days)
    ∧ (status = Status.running → 0 < current_sample_size logs → 0 < running_duration_days →
        estimated_completion_date status sample_size running_duration_days today logs
          = some (today + ((sample_size : ℚ) - (current_sample_size logs : ℚ))
              / ((current_sample_size logs : ℚ) / (running_duration_days : ℚ)))) := by
  have key : ∀ (hr : status = Status.running) (hcss : 0 < current_sample_size logs)
      (hrdd : 0 < running_duration_days),
      estimated_completion_date status sample_size running_duration_days today logs
        = some (today + ((sample_size : ℚ) - (current_sample_size logs : ℚ))
            / ((current_sample_size logs : ℚ) / (running_duration_days : ℚ))) := by
    intro hr hcss hrdd
    unfold estimated_completion_date
    rw [if_pos ⟨hr, Nat.pos_iff_ne_zero.mp hcss⟩, if_pos hrdd]
  refine ⟨⟨?_, ?_⟩, key⟩
  · intro hs
    by_cases h1 : status = Status.running ∧ current_sample_size logs ≠ 0
    · by_cases h2 : running_duration_days > 0
      · exact ⟨h1.1, Nat.pos_of_ne_zero h1.2, h2⟩
      · rw [estimated_completion_date, if_pos h1, if_neg h2] at hs
        simp at hs
    · rw [estimated_completion_date, if_neg h1] at hs
      simp at hs
  · rintro ⟨hr, hcss, hrdd⟩
    rw [key hr hcss hrdd]
    rfl

theorem estimated_completion_date_spec_witness :
    estimated_completion_date Status.running 100 2 0 wLogs
      = some (0 + (((100 : Nat) : ℚ) - (current_sample_size wLogs : ℚ))
          / ((current_sample_size wLogs : ℚ) / ((2 : Nat) : ℚ))) :=
  (estimated_completion_date_spec Status.running 100 2 0 wLogs).2 rfl (by decide) (by decide)

theorem pyint_zero : pyint 0 = 0 := by
  unfold pyint
  rw [if_neg (lt_irrefl (0 : ℚ)), Rat.floor_def']
  simp

theorem guarded_percent_eq (conversions participants : Nat) :
    guarded_percent conversions participants
      = some (if participants = 0 then 0
          else pyint ((conversions : ℚ) / (participants : ℚ) * 100)) := by
  by_cases h : participants = 0
  · simp [guarded_percent, h]
  · have hq : ((participants : ℚ)) ≠ 0 := Nat.cast_ne_zero.mpr h
    simp [guarded_percent, pydiv, h, hq]

theorem progress_context_eq (status : Status) (sample_size : Nat)
    (winning_variant : Option Variant) (running_duration_days : Nat) (today : ℚ)
    (logs : List HourlyLog) (hss : sample_size ≠ 0) :
    progress_context status sample_size winning_variant running_duration_days today logs
      = some
        { current_sample_size := control_participants logs + treatment_participants logs
          current_sample_size_percent :=
            pyint (((control_participants logs + treatment_participants logs : Nat) : ℚ)
              / (sample_size : ℚ) * 100)
          control_conversions := control_conversions logs
          control_participants := control_participants logs
          control_conversions_percent :=
            if control_participants logs = 0 then 0
            else pyint ((control_conversions logs : ℚ) / (control_participants logs : ℚ) * 100)
          treatment_conversions := treatment_conversions logs
          treatment_participants := treatment_participants logs
          treatment_conversions_percent :=
            if treatment_participants logs = 0 then 0
            else pyint ((treatment_conversions logs : ℚ) / (treatment_participants logs : ℚ) * 100)
          control_is_winner := decide (winning_variant = some Variant.control)
          treatment_is_winner := decide (winning_variant = some Variant.treatment)
          estimated_completion_date :=
            estimated_completion_date status sample_size running_duration_days today logs
          time_series := timeSeries logs } := by
  have hq : ((sample_size : ℚ)) ≠ 0 := Nat.cast_ne_zero.mpr hss
  unfold progress_context pydiv
  simp only [guarded_percent_eq, Option.some_bind, Option.map_some', if_neg hq]

/-- C10: given a nonzero target sample size, the statistics computation of
the progress view is total (the per-variant percent divisions are guarded to
0 on zero participants), while the division by the target sample size is
unguarded, so a zero sample size makes the computation fail. -/
theorem progress_context_totality (status : Status) (sample_size : Nat)
    (winning_variant : Option Variant) (running_duration_days : Nat) (today : ℚ)
    (logs : List HourlyLog) :
    (sample_size ≠ 0 →
      (progress_context status sample_size winning_variant running_duration_days today
          logs).isSome = true)
    ∧ (sample_size = 0 →
      progress_context status sample_size winning_variant running_duration_days today logs
        = none) := by
  constructor
  · intro h
    rw [progress_context_eq status sample_size winning_variant running_duration_days today
      logs h]
    rfl
  · rintro rfl
    simp [progress_context, pydiv]

theorem progress_context_totality_witness :
    (progress_context Status.draft 10 none 0 0 wLogs).isSome = true
    ∧ progress_context Status.draft 0 none 0 0 wLogs = none :=
  ⟨(progress_context_totality Status.draft 10 none 0 0 wLogs).1 (by decide),
   (progress_context_totality Status.draft 0 none 0 0 wLogs).2 rfl⟩

/-- C6: for each variant, the conversion percentage rendered by the progress
view is the truncation of 100 times the spec's conversion rate
(conversions divided by participants, 0 when participants is 0); in
particular a variant with zero participants renders 0 with no
division-by-zero error. -/
theorem conversion_rate_guarded (status : Status) (sample_size : Nat)
    (winning_variant : Option Variant) (running_duration_days : Nat) (today : ℚ)
    (logs : List HourlyLog) (hss : sample_size ≠ 0) :
    (progress_context status sample_size winning_variant running_duration_days today
          logs).map ProgressContext.control_conversions_percent
        = some (pyint
            (spec_conversionRate (control_conversions logs) (control_participants logs) * 100))
    ∧ (progress_context status sample_size winning_variant running_duration_days today
          logs).map ProgressContext.treatment_conversions_percent
        = some (pyint
            (spec_conversionRate (treatment_conversions logs) (treatment_participants logs)
              * 100))
    ∧ (control_participants logs = 0 →
        (progress_context status sample_size winning_variant running_duration_days today
            logs).map ProgressContext.control_conversions_percent = some 0)
    ∧ (treatment_participants logs = 0 →
        (progress_context status sample_size winning_variant running_duration_days today
            logs).map ProgressContext.treatment_conversions_percent = some 0) := by
  rw [progress_context_eq status sample_size winning_variant running_duration_days today
    logs hss]
  refine ⟨?_, ?_, ?_, ?_⟩
  · by_cases h : control_participants logs = 0 <;>
      simp [h, spec_conversionRate, pyint_zero]
  · by_cases h : treatment_participants logs = 0 <;>
      simp [h, spec_conversionRate, pyint_zero]
  · intro h
    simp [h]
  · intro h
    simp [h]

theorem conversion_rate_guarded_witness :
    (progress_context Status.draft 10 none 0 0 wLogs).map
        ProgressContext.control_conversions_percent
      = some (pyint
          (spec_conversionRate (control_conversions wLogs) (control_participants wLogs) * 100))
    ∧ (progress_context Status.draft 10 none 0 0 wLogs).map
        ProgressContext.treatment_conversions_percent = some 0 :=
  ⟨(conversion_rate_guarded Status.draft 10 none 0 0 wLogs (by decide)).1,
   (conversion_rate_guarded Status.draft 10 none 0 0 wLogs (by decide)).2.2.2 (by decide)⟩

/-- C3: the progress POST handler applies a lifecycle transition exactly when
the status is in the legal set of the chosen action (start/restart: Draft or
Paused; end: Draft, Running or Paused; pause: Running); every other request,
including every action on a Finished experiment and a request with no
recognised action key, posts an error and leaves the experiment unchanged. -/
theorem progress_post_guard (e : Experiment) (req : ProgressPost) :
    (isErrorMsg (progress_post e req).2 = true → (progress_post e req).1 = e)
    ∧ (e.status = Status.finished →
        (progress_post e req).1 = e ∧ isErrorMsg (progress_post e req).2 = true)
    ∧ (req.action_start = false → req.action_restart = false → req.action_end = false →
        req.action_pause = false → progress_post e req = (e, ProgressMsg.unknownAction))
    ∧ ((progress_post e req).1 ≠ e →
        ((req.action_start || req.action_restart) = true
            ∧ (e.status = Status.draft ∨ e.status = Status.paused)
            ∧ progress_post e req = (abStart e, ProgressMsg.started))
          ∨ ((req.action_start || req.action_restart) = false ∧ req.action_end = true
            ∧ (e.status = Status.draft ∨ e.status = Status.running
                ∨ e.status = Status.paused)
            ∧ progress_post e req = (abFinish e, ProgressMsg.silent))
          ∨ ((req.action_start || req.action_restart) = false ∧ req.action_end = false
            ∧ req.action_pause = true ∧ e.status = Status.running
            ∧ progress_post e req = (abPause e, ProgressMsg.silent)))
    ∧ ((req.action_start || req.action_restart) = true →
        (e.status = Status.draft ∨ e.status = Status.paused) →
        progress_post e req = (abStart e, ProgressMsg.started))
    ∧ ((req.action_start || req.action_restart) = false → req.action_end = true →
        (e.status = Status.draft ∨ e.status = Status.running ∨ e.status = Status.paused) →
        progress_post e req = (abFinish e, ProgressMsg.silent))
    ∧ ((req.action_start || req.action_restart) = false → req.action_end = false →
        req.action_pause = true → e.status = Status.running →
        progress_post e req = (abPause e, ProgressMsg.silent))
    ∧ ((req.action_start || req.action_restart) = true →
        ¬ (e.status = Status.draft ∨ e.status = Status.paused) →
        progress_post e req = (e, ProgressMsg.mustBeDraftOrPaused))
    ∧ ((req.action_start || req.action_restart) = false → req.action_end = true →
        ¬ (e.status = Status.draft ∨ e.status = Status.running
            ∨ e.status = Status.paused) →
        progress_post e req = (e, ProgressMsg.alreadyEnded))
    ∧ ((req.action_start || req.action_restart) = false → req.action_end = false →
        req.action_pause = true → e.status ≠ Status.running →
        progress_post e req = (e, ProgressMsg.notRunning)) := by
  obtain ⟨pid, st⟩ := e
  obtain ⟨a, b, c, d⟩ := req
  cases st <;> cases a <;> cases b <;> cases c <;> cases d <;>
    simp [progress_post, abStart, abPause, abFinish, isErrorMsg]

theorem progress_post_guard_witness :
    (progress_post { pageId := 7, status := Status.finished }
        { action_start := false, action_restart := false, action_end := true,
          action_pause := false }).1
      = { pageId := 7, status := Status.finished }
    ∧ isErrorMsg (progress_post { pageId := 7, status := Status.finished }
        { action_start := false, action_restart := false, action_end := true,
          action_pause := false }).2 = true :=
  (progress_post_guard { pageId := 7, status := Status.finished }
    { action_start := false, action_restart := false, action_end := true,
      action_pause := false }).2.1 rfl

/-- C7: when the page already has a current (Draft, Running or Paused) A/B
test, `add_form` never creates an experiment, and whenever the permission
checks pass the caller gets the duplicate-test error redirect. -/
theorem add_form_rejects_duplicate (req : AddRequest) (page : PageRec)
    (experiments : List Experiment)
    (hdup : (get_current_for_page experiments page.id).isSome = true) :
    (add_form req page experiments).1 = experiments
    ∧ (req.can_edit_page = true → req.can_add_abtest = true →
        (add_form req page experiments).2 = AddFormResponse.redirectAlreadyRunning) := by
  obtain ⟨ce, ca, ip, fv, sr⟩ := req
  cases ce <;> cases ca <;>
    simp [add_form, add_ab_test_checks, hdup]

theorem add_form_rejects_duplicate_witness :
    (add_form
        { can_edit_page := true, can_add_abtest := true, is_post := true, form_valid := true,
          start_requested := false }
        { id := 1, live := true, has_unpublished_changes := true }
        [{ pageId := 1, status := Status.running }]).1
      = [{ pageId := 1, status := Status.running }]
    ∧ (add_form
        { can_edit_page := true, can_add_abtest := true, is_post := true, form_valid := true,
          start_requested := false }
        { id := 1, live := true, has_unpublished_changes := true }
        [{ pageId := 1, status := Status.running }]).2
      = AddFormResponse.redirectAlreadyRunning := by
  have h := add_form_rejects_duplicate
    { can_edit_page := true, can_add_abtest := true, is_post := true, form_valid := true,
      start_requested := false }
    { id := 1, live := true, has_unpublished_changes := true }
    [{ pageId := 1, status := Status.running }] (by decide)
  exact ⟨h.1, h.2 rfl rfl⟩

/-- C8: a request from a user lacking page-edit permission or the add-A/B-test
permission is answered with PermissionDenied and no experiment is created. -/
theorem add_form_permission_denied (req : AddRequest) (page : PageRec)
    (experiments : List Experiment)
    (hperm : req.can_edit_page = false ∨ req.can_add_abtest = false) :
    add_form req page experiments = (experiments, AddFormResponse.permissionDenied) := by
  obtain ⟨ce, ca, ip, fv, sr⟩ := req
  cases ce <;> cases ca <;> simp at hperm <;>
    simp [add_form, add_ab_test_checks]

theorem add_form_permission_denied_witness :
    add_form
        { can_edit_page := false, can_add_abtest := true, is_post := true, form_valid := true,
          start_requested := true }
        { id := 2, live := true, has_unpublished_changes := true } []
      = ([], AddFormResponse.permissionDenied) :=
  add_form_permission_denied
    { can_edit_page := false, can_add_abtest := true, is_post := true, form_valid := true,
      start_requested := true }
    { id := 2, live := true, has_unpublished_changes := true } [] (Or.inl rfl)

/-- C9: with no current A/B test on the page, a request for a page that is
not live or has no unpublished changes never creates an experiment, and
whenever the permission checks pass the caller gets the
must-be-live-with-drafts error redirect. -/
theorem add_form_requires_live_with_drafts (req : AddRequest) (page : PageRec)
    (experiments : List Experiment)
    (hcur : get_current_for_page experiments page.id = none)
    (hpage : page.live = false ∨ page.has_unpublished_changes = false) :
    (add_form req page experiments).1 = experiments
    ∧ (req.can_edit_page = true → req.can_add_abtest = true →
        (add_form req page experiments).2 = AddFormResponse.redirectNotLive) := by
  obtain ⟨ce, ca, ip, fv, sr⟩ := req
  cases ce <;> cases ca <;> rcases hpage with h | h <;>
    simp [add_form, add_ab_test_checks, hcur, h]

theorem emitDays_map_date (c t : Nat) : ∀ (s n : Nat),
    (emitDays c t s n).map Entry.date = List.range' s n := by
  intro s n
  induction n generalizing s with
  | zero => rfl
  | succ n ih => simp [emitDays, List.range'_succ, ih]

theorem emitDays_mem (c t : Nat) : ∀ (s n : Nat) (e : Entry), e ∈ emitDays c t s n →
    e.control = c ∧ e.treatment = t ∧ s ≤ e.date ∧ e.date < s + n := by
  intro s n
  induction n generalizing s with
  | zero => intro e he; simp [emitDays] at he
  | succ n ih =>
    intro e he
    simp only [emitDays] at he
    rcases List.mem_cons.mp he with rfl | he'
    · exact ⟨rfl, rfl, Nat.le_refl s, show s < s + (n + 1) from by omega⟩
    · obtain ⟨h1, h2, h3, h4⟩ := ih (s + 1) e he'
      exact ⟨h1, h2, by omega, by omega⟩

theorem emitDays_chain (c t : Nat) : ∀ (s n : Nat),
    List.Chain' entMono (emitDays c t s n) := by
  intro s n
  induction n generalizing s with
  | zero => simp [emitDays]
  | succ n ih =>
    simp only [emitDays]
    refine List.chain'_cons'.mpr ⟨?_, ih (s + 1)⟩
    intro y hy
    obtain ⟨h1, h2, _, _⟩ := emitDays_mem c t (s + 1) n y (List.mem_of_mem_head? hy)
    exact ⟨by simp [h1], by simp [h2]⟩

theorem convSum_cons (v : Variant) (l : HourlyLog) (ls : List HourlyLog) :
    convSum v (l :: ls)
      = (if l.variant = v then l.conversions else 0) + convSum v ls := by
  by_cases h : l.variant = v <;> simp [convSum, List.filter_cons, h]

theorem convSum_singleton (v : Variant) (l : HourlyLog) :
    convSum v [l] = if l.variant = v then l.conversions else 0 := by
  rw [convSum_cons]
  simp [convSum]

theorem newControl_eq (c : Nat) (l : HourlyLog) :
    newControl c l = c + (if l.variant = Variant.control then l.conversions else 0) := by
  by_cases h : l.variant = Variant.control <;> simp [newControl, h]

theorem newTreatment_eq (t : Nat) (l : HourlyLog) :
    newTreatment t l = t + (if l.variant = Variant.treatment then l.conversions else 0) := by
  cases hv : l.variant <;> simp [newTreatment, hv]

theorem newControl_ge (c : Nat) (l : HourlyLog) : c ≤ newControl c l := by
  unfold newControl
  split <;> omega

theorem newTreatment_ge (t : Nat) (l : HourlyLog) : t ≤ newTreatment t l := by
  unfold newTreatment
  split <;> omega

theorem tsLoop_entry_totals : ∀ (logs : List HourlyLog) (c t d : Nat),
    List.Pairwise dateLE logs → (∀ x ∈ logs, d ≤ x.date) →
    ∀ e ∈ tsLoop logs c t (some d),
      d < e.date
      ∧ e.control = c + convSum Variant.control (rowsThroughFirstOn e.date logs)
      ∧ e.treatment = t + convSum Variant.treatment (rowsThroughFirstOn e.date logs) := by
  intro logs
  induction logs with
  | nil =>
    intro c t d _ _ e he
    simp [tsLoop] at he
  | cons l ls ih =>
    intro c t d hpw hge e he
    obtain ⟨hhead, htail⟩ := List.pairwise_cons.mp hpw
    have hd : d ≤ l.date := hge l (List.mem_cons_self l ls)
    simp only [tsLoop] at he
    rw [Nat.max_eq_right hd] at he
    rcases List.mem_append.mp he with hem | hrec
    · obtain ⟨h1, h2, h3, h4⟩ := emitDays_mem _ _ _ _ e hem
      have hle : e.date ≤ l.date := by omega
      have hrows : rowsThroughFirstOn e.date (l :: ls) = [l] := by
        simp [rowsThroughFirstOn, Nat.not_lt.mpr hle]
      refine ⟨by omega, ?_, ?_⟩
      · rw [hrows, h1, newControl_eq, convSum_singleton]
      · rw [hrows, h2, newTreatment_eq, convSum_singleton]
    · have hge' : ∀ x ∈ ls, l.date ≤ x.date := fun x hx => hhead x hx
      obtain ⟨hlt, hc, ht⟩ :=
        ih (newControl c l) (newTreatment t l) l.date htail hge' e hrec
      have hrows : rowsThroughFirstOn e.date (l :: ls)
          = l :: rowsThroughFirstOn e.date ls := by
        simp [rowsThroughFirstOn, hlt]
      refine ⟨by omega, ?_, ?_⟩
      · rw [hrows, convSum_cons, hc, newControl_eq]
        omega
      · rw [hrows, convSum_cons, ht, newTreatment_eq]
        omega

theorem lastDate_ge : ∀ (logs : List HourlyLog) (d : Nat), d ≤ lastDate d logs := by
  intro logs
  induction logs with
  | nil => intro d; exact Nat.le_refl d
  | cons l ls ih =>
    intro d
    exact Nat.le_trans (Nat.le_max_left d l.date) (ih (max d l.date))

theorem tsLoop_map_date : ∀ (logs : List HourlyLog) (c t d : Nat),
    List.Pairwise dateLE logs → (∀ x ∈ logs, d ≤ x.date) →
    (tsLoop logs c t (some d)).map Entry.date
      = List.range' (d + 1) (lastDate d logs - d) := by
  intro logs
  induction logs with
  | nil =>
    intro c t d _ _
    simp [tsLoop, lastDate]
  | cons l ls ih =>
    intro c t d hpw hge
    obtain ⟨hhead, htail⟩ := List.pairwise_cons.mp hpw
    have hge' : ∀ x ∈ ls, l.date ≤ x.date := fun x hx => hhead x hx
    have hd : d ≤ l.date := hge l (List.mem_cons_self l ls)
    have hlast : l.date ≤ lastDate l.date ls := lastDate_ge ls l.date
    simp only [tsLoop, List.map_append, Nat.max_eq_right hd]
    rw [emitDays_map_date, ih (newControl c l) (newTreatment t l) l.date htail hge']
    rw [show lastDate d (l :: ls) = lastDate l.date ls from by
      simp [lastDate, Nat.max_eq_right hd]]
    rw [show l.date + 1 = (d + 1) + (l.date - d) from by omega]
    rw [List.range'_append_1]
    rw [show (lastDate l.date ls - l.date) + (l.date - d) = lastDate l.date ls - d from by
      omega]

theorem getLast_date_eq : ∀ (ls : List HourlyLog) (l : HourlyLog),
    (∀ x ∈ ls, l.date ≤ x.date) → List.Pairwise dateLE ls →
    ((l :: ls).getLast (List.cons_ne_nil l ls)).date = lastDate l.date ls := by
  intro ls
  induction ls with
  | nil => intro l _ _; rfl
  | cons l2 ls2 ih =>
    intro l hge hpw
    obtain ⟨hh2, ht2⟩ := List.pairwise_cons.mp hpw
    have hge2 : ∀ x ∈ ls2, l2.date ≤ x.date := fun x hx => hh2 x hx
    have h12 : l.date ≤ l2.date := hge l2 (List.mem_cons_self l2 ls2)
    rw [List.getLast_cons (List.cons_ne_nil l2 ls2)]
    rw [show lastDate l.date (l2 :: ls2) = lastDate l2.date ls2 from by
      simp [lastDate, Nat.max_eq_right h12]]
    exact ih l2 hge2 ht2

theorem tsLoop_bound_chain : ∀ (logs : List HourlyLog) (c t : Nat) (dopt : Option Nat),
    (∀ e ∈ tsLoop logs c t dopt, c ≤ e.control ∧ t ≤ e.treatment)
    ∧ List.Chain' entMono (tsLoop logs c t dopt) := by
  intro logs
  induction logs with
  | nil =>
    intro c t dopt
    constructor
    · intro e he
      simp [tsLoop] at he
    · simp [tsLoop]
  | cons l ls ih =>
    intro c t dopt
    have hcle := newControl_ge c l
    have htle := newTreatment_ge t l
    cases dopt with
    | none =>
      constructor
      · intro e he
        simp only [tsLoop] at he
        rcases List.mem_cons.mp he with rfl | he'
        · exact ⟨hcle, htle⟩
        · obtain ⟨h1, h2⟩ :=
            (ih (newControl c l) (newTreatment t l) (some l.date)).1 e he'
          exact ⟨Nat.le_trans hcle h1, Nat.le_trans htle h2⟩
      · simp only [tsLoop]
        refine List.chain'_cons'.mpr ⟨?_, (ih _ _ _).2⟩
        intro y hy
        obtain ⟨h1, h2⟩ :=
          (ih (newControl c l) (newTreatment t l) (some l.date)).1 y
            (List.mem_of_mem_head? hy)
        exact ⟨h1, h2⟩
    | some dv =>
      constructor
      · intro e he
        simp only [tsLoop] at he
        rcases List.mem_append.mp he with hem | he'
        · obtain ⟨h1, h2, _, _⟩ := emitDays_mem _ _ _ _ e hem
          rw [h1, h2]
          exact ⟨hcle, htle⟩
        · obtain ⟨h1, h2⟩ :=
            (ih (newControl c l) (newTreatment t l) (some (max dv l.date))).1 e he'
          exact ⟨Nat.le_trans hcle h1, Nat.le_trans htle h2⟩
      · simp only [tsLoop]
        refine List.Chain'.append (emitDays_chain _ _ _ _) (ih _ _ _).2 ?_
        intro x hx y hy
        obtain ⟨hx1, hx2, _, _⟩ :=
          emitDays_mem _ _ _ _ x (List.mem_of_mem_getLast? hx)
        obtain ⟨hy1, hy2⟩ :=
          (ih (newControl c l) (newTreatment t l) (some (max dv l.date))).1 y
            (List.mem_of_mem_head? hy)
        exact ⟨by omega, by omega⟩

/-- C2: for an experiment with log rows the time series has exactly one entry
per calendar day from the date of the first row to the date of the last row
inclusive, in ascending date order, both cumulative columns are
non-decreasing across consecutive entries, and with no log rows the series
is empty. -/
theorem timeSeries_days (logs : List HourlyLog) (h : SortedLogs logs) :
    (logs = [] → timeSeries logs = [])
    ∧ (∀ l ls, logs = l :: ls →
        (timeSeries logs).map Entry.date
          = List.range' l.date
              (((l :: ls).getLast (List.cons_ne_nil l ls)).date + 1 - l.date))
    ∧ List.Chain' entMono (timeSeries logs) := by
  refine ⟨?_, ?_, (tsLoop_bound_chain logs 0 0 none).2⟩
  · rintro rfl
    rfl
  · rintro l ls rfl
    obtain ⟨hhead, htail⟩ := List.pairwise_cons.mp h.datesMono
    have hge : ∀ x ∈ ls, l.date ≤ x.date := fun x hx => hhead x hx
    have hlast : l.date ≤ lastDate l.date ls := lastDate_ge ls l.date
    simp only [timeSeries, tsLoop, List.map_cons]
    rw [tsLoop_map_date ls (newControl 0 l) (newTreatment 0 l) l.date htail hge]
    rw [getLast_date_eq ls l hge htail]
    rw [show lastDate l.date ls + 1 - l.date = (lastDate l.date ls - l.date) + 1 from by
      omega]
    rw [List.range'_succ]

theorem timeSeries_days_witness :
    (timeSeries exLogs).map Entry.date = List.range' 1 3 := by
  have h := (timeSeries_days exLogs (by decide)).2.1
    { date := 1, hour := 0, variant := Variant.control, participants := 0, conversions := 5 }
    [{ date := 3, hour := 0, variant := Variant.control, participants := 0, conversions := 7 }]
    rfl
  exact h

/-- C1 is false of the code: on a table with control rows on day 1 (5
conversions) and day 3 (7 conversions), the gap-day entry for day 2 shows 12,
not the cumulative total 5 of the rows dated on or before day 2: the loop
adds a row's conversions to the running totals before emitting the entries
for the days it skips over. -/
theorem timeSeries_gap_day_counterexample :
    SortedLogs exLogs
    ∧ timeSeries exLogs
        = [{ date := 1, control := 5, treatment := 0 },
           { date := 2, control := 12, treatment := 0 },
           { date := 3, control := 12, treatment := 0 }]
    ∧ specCumulativeConversions Variant.control 2 exLogs = 5
    ∧ ¬ (∀ e ∈ timeSeries exLogs,
          e.control = specCumulativeConversions Variant.control e.date exLogs
            ∧ e.treatment = specCumulativeConversions Variant.treatment e.date exLogs) :=
  ⟨by decide, by decide, by decide, by decide⟩

/-- C1 (amended): each time-series entry for day D carries, per variant, the
sum of conversions over the rows dated strictly before D plus the first row
dated on or after D in (date, hour) order — so a gap-day entry equals the
last preceding log day's total plus the first row of the next log day, and a
log day's entry includes that day's first row only. -/
theorem timeSeries_entry_totals (logs : List HourlyLog) (h : SortedLogs logs) :
    ∀ e ∈ timeSeries logs,
      e.control = convSum Variant.control (rowsThroughFirstOn e.date logs)
      ∧ e.treatment = convSum Variant.treatment (rowsThroughFirstOn e.date logs) := by
  have hpw := h.datesMono
  cases logs with
  | nil =>
    intro e he
    simp [timeSeries, tsLoop] at he
  | cons l ls =>
    obtain ⟨hhead, htail⟩ := List.pairwise_cons.mp hpw
    have hge : ∀ x ∈ ls, l.date ≤ x.date := fun x hx => hhead x hx
    intro e he
    simp only [timeSeries, tsLoop] at he
    rcases List.mem_cons.mp he with rfl | he'
    · have hrows : rowsThroughFirstOn l.date (l :: ls) = [l] := by
        simp [rowsThroughFirstOn]
      refine ⟨?_, ?_⟩ <;>
        simp [hrows, newControl_eq, newTreatment_eq, convSum_singleton]
    · obtain ⟨hlt, hc, ht⟩ :=
        tsLoop_entry_totals ls (newControl 0 l) (newTreatment 0 l) l.date htail hge e he'
      have hrows : rowsThroughFirstOn e.date (l :: ls)
          = l :: rowsThroughFirstOn e.date ls := by
        simp [rowsThroughFirstOn, hlt]
      constructor
      · rw [hrows, convSum_cons, hc, newControl_eq]
        omega
      · rw [hrows, convSum_cons, ht, newTreatment_eq]
        omega

theorem timeSeries_entry_totals_witness :
    Entry.control { date := 2, control := 12, treatment := 0 }
      = convSum Variant.control (rowsThroughFirstOn 2 exLogs) := by
  have h := timeSeries_entry_totals exLogs (by decide)
    { date := 2, control := 12, treatment := 0 } (by decide)
  exact h.1

theorem add_form_requires_live_with_drafts_witness :
    (add_form
        { can_edit_page := true, can_add_abtest := true, is_post := false, form_valid := false,
          start_requested := false }
        { id := 2, live := false, has_unpublished_changes := true } []).1 = []
    ∧ (add_form
        { can_edit_page := true, can_add_abtest := true, is_post := false, form_valid := false,
          start_requested := false }
        { id := 2, live := false, has_unpublished_changes := true } []).2
      = AddFormResponse.redirectNotLive := by
  have h := add_form_requires_live_with_drafts
    { can_edit_page := true, can_add_abtest := true, is_post := false, form_valid := false,
      start_requested := false }
    { id := 2, live := false, has_unpublished_changes := true } [] rfl (Or.inl rfl)
  exact ⟨h.1, h.2 rfl rfl⟩

end AbTesting
